import Mathlib

/-!
Verification development for the AlloyDB Go connector's connection-info
cache, refresh engine and dial pipeline.

Shallow embedding conventions:
  - `time.Time` and `time.Duration` are modelled as `Int` nanoseconds
    (Go stores both as 64-bit nanosecond counts; no arithmetic here
    approaches the 64-bit range, so plain `Int` is faithful).
  - Channels/timers are modelled by explicit state fields; the body of a
    timer callback becomes a pure step function on that state.
  - Fallible operations become `Except`/`Option` values; results of
    external collaborators (control plane, network reads) are passed in as
    explicit arguments.
-/

namespace AlloyDB

/-- One nanosecond-denominated minute, as in Go's `time.Minute`. -/
def nsMinute : Int := 60 * 1000000000

/-- One nanosecond-denominated hour, as in Go's `time.Hour`. -/
def nsHour : Int := 60 * nsMinute

/-- Modelled from the spec: `refreshBuffer`, the amount of time before a
result expires to start a new refresh attempt, is 4 minutes in the current
refresh-ahead/lazy cache code (`internal/alloydb/instance.go`), which is not
present under src/ (only its tests and callers are); the spec fixes it as
"expiration − 4m (the refresh buffer)". -/
def refreshBuffer : Int := 4 * nsMinute

/-- Modelled from the spec: `refreshDuration now expiry` of the current
refresh-ahead cache (`internal/alloydb/instance.go`, absent from src/, tested
by `TestRefreshDuration` in `internal/alloydb/instance_test.go`): the spec's
scheduling policy says, with `d = expiry − now`: if `d > 1h` wait `d/2`; if
`d == 1h` wait `30m`; if `4m < d < 1h` wait `1m`; if `d ≤ 4m` refresh
immediately (wait 0). -/
def refreshDuration (now expiry : Int) : Int :=
  if expiry - now > nsHour then (expiry - now) / 2
  else if expiry - now = nsHour then 30 * nsMinute
  else if expiry - now > 4 * nsMinute then nsMinute
  else 0

/-- Time at which the next refresh is scheduled after a refresh completed at
`now` with certificate expiration `expiry`. -/
def nextRefreshTime (now expiry : Int) : Int :=
  now + refreshDuration now expiry

/-! ## Refresh-ahead cache operations (`internal/alloydb/instance.go`) -/

/-- Result of a refresh, as stored in a `refreshOperation`
(`refreshResult` in instance.go/refresh.go): the instance IP address and the
certificate expiry. -/
structure RefreshResult where
  ipAddr : String
  expiry : Int
  deriving DecidableEq, Repr

/-- A `refreshOperation`: `ready` models whether the completion channel has
been closed, `err` the stored error, `result` the stored result. -/
structure RefreshOperation where
  ready : Bool
  err : Option String
  result : RefreshResult
  deriving DecidableEq, Repr

/-- `refreshOperation.IsValid` from instance.go: the operation is complete,
succeeded, and its result has not yet expired (`time.Now().After(expiry)`
is a strict comparison). -/
def RefreshOperation.isValidAt (r : RefreshOperation) (now : Int) : Bool :=
  if !r.ready then false
  else if r.err.isSome || decide (now > r.result.expiry) then false
  else true

/-- The cache's guarded state: the `cur` operation served to readers and the
`next` scheduled operation. For the completion step we track `cur` and the
delay with which the replacement `next` gets scheduled. -/
structure RefreshAheadState where
  cur : RefreshOperation
  deriving DecidableEq, Repr

/-- The tail of `scheduleRefresh`'s timer callback, run when the refresh
operation `res` has completed (its channel closed) at time `now`: on error,
schedule the next attempt with delay 0 and keep `cur` unless it is no longer
valid, in which case the failed operation becomes `cur`; on success (and the
instance context not done), promote `res` to `cur` and schedule the next
refresh after `refreshDuration`. Returns the new `cur` and `some delay` for
the newly scheduled `next` (`none` when nothing was scheduled). The error
branch is verbatim in src's `internal/alloydb/instance.go`; the success
branch's delay follows the spec-modelled `refreshDuration` of the current
code. -/
def onRefreshComplete (now : Int) (s : RefreshAheadState)
    (res : RefreshOperation) (ctxDone : Bool) :
    RefreshAheadState × Option Int :=
  if res.err.isSome then
    ({ cur := if s.cur.isValidAt now then s.cur else res }, some 0)
  else
    if ctxDone then (s, none)
    else ({ cur := res }, some (refreshDuration now res.result.expiry))

/-! ## Lazy refresh cache (`internal/alloydb/lazy.go`) -/

/-- Instance key as used by the dialer and caches (`alloydb.InstanceURI`):
an immutable four-tuple. -/
structure InstanceKey where
  project : String
  region : String
  cluster : String
  name : String
  deriving DecidableEq, Repr

/-- Connection info as consumed by the dial pipeline: the endpoint map
(`IPAddrs`) and the leaf-certificate expiration. The certificate material is
irrelevant to the dialer-level claims and is modelled separately for the
refresher. -/
structure ConnectionInfo where
  ipAddrs : List (String × String)
  expiration : Int
  deriving DecidableEq, Repr

/-- Lookup in the endpoint map (Go's `ci.IPAddrs[cfg.ipType]`). -/
def ConnectionInfo.addrOf (ci : ConnectionInfo) (kind : String) : Option String :=
  (ci.ipAddrs.find? (fun p => p.1 = kind)).map (·.2)

/-- Mutable state of a `LazyRefreshCache`: the `needsRefresh` flag and the
cached record. -/
structure LazyState where
  needsRefresh : Bool
  cached : ConnectionInfo
  deriving DecidableEq, Repr

/-- `LazyRefreshCache.ConnectionInfo` from lazy.go, with the synchronous
control-plane refresh result passed in as `refreshRes`. Returns the new
state, the value returned to the caller, and whether a refresh was attempted
(i.e. whether the control plane was contacted). The fast path requires
`!needsRefresh && now.Before(expiration.Add(-refreshBuffer))` (strict). -/
def lazyConnectionInfo (now : Int) (s : LazyState)
    (refreshRes : Except String ConnectionInfo) :
    LazyState × Except String ConnectionInfo × Bool :=
  if !s.needsRefresh && decide (now < s.cached.expiration - refreshBuffer) then
    (s, .ok s.cached, false)
  else
    match refreshRes with
    | .error e => (s, .error e, true)
    | .ok ci => ({ needsRefresh := false, cached := ci }, .ok ci, true)

/-- `LazyRefreshCache.ForceRefresh` from lazy.go: sets the flag. -/
def lazyForceRefresh (s : LazyState) : LazyState :=
  { s with needsRefresh := true }

/-! ## Dialer (`dialer.go`) -/

/-- Error kinds surfaced by `Dial`, following the `errtype` taxonomy plus the
sentinel `ErrDialerClosed`. `config` carries the message and the instance
string (`errtype.NewConfigError(msg, inst)`); `refresh` wraps an error coming
out of `cache.ConnectionInfo`. -/
inductive DialErr where
  | dialerClosed
  | config (msg inst : String)
  | refresh (e : String)
  deriving DecidableEq, Repr

/-- The per-dial outcome of the modelled pipeline prefix: either the selected
endpoint address (just before TCP connect) or an error. -/
inductive DialOutcome where
  | addr (a : String)
  | fail (e : DialErr)
  deriving DecidableEq, Repr

/-- Observable actions of one `Dial` call, used to state ordering claims:
whether the instance URI was parsed, whether the cache map was accessed,
whether `ForceRefresh` was invoked, and which entries had `Close` called on
them by `removeCached`. -/
structure DialTrace where
  parseCalled : Bool
  mapAccessed : Bool
  forceRefreshCalled : Bool
  closedEntries : List InstanceKey
  deriving DecidableEq, Repr

/-- Dialer state: the closed signal and the process-wide map of cache
entries, modelled as the list of keys present. -/
structure DialerState where
  closed : Bool
  cache : List InstanceKey
  deriving DecidableEq, Repr

/-- `Dialer.Close` from dialer.go: if the closed channel is already closed,
return nil immediately; otherwise close it, and close every cache entry
under the lock. Returns the new state and the error (always `none`). -/
def closeDialer (d : DialerState) : DialerState × Option String :=
  if d.closed then (d, none)
  else ({ closed := true, cache := d.cache }, none)

/-- The message of the missing-endpoint configuration error
(`fmt.Sprintf("instance does not have IP of type %q", cfg.ipType)`). -/
def ipTypeMsg (kind : String) : String :=
  "instance does not have IP of type \"" ++ kind ++ "\""

/-- Default dial configuration built in `NewDialer`: endpoint kind PRIVATE,
TCP keep-alive 30s. -/
structure DialCfg where
  ipType : String
  tcpKeepAlive : Int
  deriving DecidableEq, Repr

/-- The `dialCfg` literal from `NewDialer` (`ipType: alloydb.PrivateIP`,
`tcpKeepAlive: defaultTCPKeepAlive`). -/
def defaultDialCfg : DialCfg :=
  { ipType := "PRIVATE", tcpKeepAlive := 30 * 1000000000 }

/-- The prefix of `Dialer.Dial` from dialer.go covering: the closed check,
URI parsing, cache-entry lookup/insertion, the first `ConnectionInfo` fetch,
the expired-client-certificate re-fetch (`invalidClientCert` then
`ForceRefresh` then a second fetch, removing the entry on error), and
endpoint selection (removing the entry and returning a config error naming
the endpoint kind when absent). External effects are passed as arguments:
`parseRes` is the result of `alloydb.ParseInstURI`, `fetch1`/`fetch2` the
results of the two possible `cache.ConnectionInfo` calls, `now` the wall
clock at the `invalidClientCert` check. Returns the new dialer state, the
trace of observable actions, and the outcome. -/
def dialStep (d : DialerState) (cfg : DialCfg)
    (parseRes : Except (String × String) InstanceKey)
    (fetch1 fetch2 : Except String ConnectionInfo) (now : Int) :
    DialerState × DialTrace × DialOutcome :=
  if d.closed then
    (d, ⟨false, false, false, []⟩, .fail .dialerClosed)
  else
    match parseRes with
    | .error e =>
        (d, ⟨true, false, false, []⟩, .fail (.config e.1 e.2))
    | .ok inst =>
      -- connectionInfoCache: lookup or insert under the map lock
      let d := { d with cache := if d.cache.contains inst then d.cache
                                 else inst :: d.cache }
      match fetch1 with
      | .error e =>
          -- removeCached: Close the entry and delete it from the map
          ({ d with cache := d.cache.filter (· ≠ inst) },
           ⟨true, true, false, [inst]⟩, .fail (.refresh e))
      | .ok ci =>
        -- invalidClientCert: now.After(expiration), strict
        if decide (now > ci.expiration) then
          match fetch2 with
          | .error e =>
              ({ d with cache := d.cache.filter (· ≠ inst) },
               ⟨true, true, true, [inst]⟩, .fail (.refresh e))
          | .ok ci2 =>
              match ci2.addrOf cfg.ipType with
              | none =>
                  ({ d with cache := d.cache.filter (· ≠ inst) },
                   ⟨true, true, true, [inst]⟩,
                   .fail (.config (ipTypeMsg cfg.ipType)
                     (inst.project ++ "/" ++ inst.region ++ "/" ++
                      inst.cluster ++ "/" ++ inst.name)))
              | some addr => (d, ⟨true, true, true, []⟩, .addr addr)
        else
          match ci.addrOf cfg.ipType with
          | none =>
              ({ d with cache := d.cache.filter (· ≠ inst) },
               ⟨true, true, false, [inst]⟩,
               .fail (.config (ipTypeMsg cfg.ipType)
                 (inst.project ++ "/" ++ inst.region ++ "/" ++
                  inst.cluster ++ "/" ++ inst.name)))
          | some addr => (d, ⟨true, true, false, []⟩, .addr addr)

/-! ## Metadata exchange (`Dialer.metadataExchange` and `buffer` in dialer.go) -/

/-- The pooled buffer size: `maxMessageSize = 16 * 1024`. -/
def maxMessageSize : Nat := 16 * 1024

/-- Big-endian 4-byte encoding of a length, as produced by
`binary.BigEndian.PutUint32(buf, uint32(reqSize))`; the `uint32` conversion
truncates modulo 2^32. -/
def be32enc (n : Nat) : List Nat :=
  [n % 2 ^ 32 / 2 ^ 24 % 256, n % 2 ^ 32 / 2 ^ 16 % 256,
   n % 2 ^ 32 / 2 ^ 8 % 256, n % 2 ^ 32 % 256]

/-- Big-endian decoding of the 4 response-length bytes
(`binary.BigEndian.Uint32(buf)`). -/
def be32dec (bs : List Nat) : Nat :=
  match bs with
  | [b0, b1, b2, b3] => ((b0 * 256 + b1) * 256 + b2) * 256 + b3
  | _ => 0

/-- Unmarshalled `MetadataExchangeResponse`: the response code
(`OK = 1`, `ERROR = 2`) and the error string. -/
structure MdxResp where
  code : Nat
  errMsg : String
  deriving DecidableEq, Repr

/-- Outcome of the metadata exchange. `boundsFault` models the Go runtime
panic raised by a slice expression beyond the buffer's capacity; the other
constructors are the returned errors and success. -/
inductive MdxOutcome where
  | ioError
  | boundsFault
  | decodeError
  | exchangeRefused (msg : String)
  | ok
  deriving DecidableEq, Repr

/-- Observable I/O of one metadata exchange: the bytes written to the
connection, the bytes consumed by the 4-byte length read, and the bytes
consumed by the payload read (which are exactly the bytes handed to
`proto.Unmarshal`). -/
structure MdxTrace where
  written : List Nat
  lenRead : Option (List Nat)
  payloadRead : Option (List Nat)
  deriving DecidableEq, Repr

/-- `Dialer.metadataExchange` from dialer.go. `reqBytes` is the marshalled
`MetadataExchangeRequest` (`proto.Marshal`; `proto.Size` equals its length),
`stream` the incoming byte stream of the connection, and `unmarshal` the
`proto.Unmarshal` oracle for the response. The connection `Read`s are
modelled as exact reads from the stream (a read fails when the stream is
exhausted). The pooled 16 KiB buffer is sliced as in the source:
`buf = append(buf[:4], m...)` keeps the pooled array (capacity 16384) unless
the request forces a growth, and `resp := buf[:respSize]` faults at runtime
whenever `respSize` exceeds that capacity. -/
def metadataExchange (reqBytes : List Nat) (stream : List Nat)
    (unmarshal : List Nat → Option MdxResp) : MdxTrace × MdxOutcome :=
  let written := be32enc reqBytes.length ++ reqBytes
  let bufCap := max maxMessageSize (4 + reqBytes.length)
  if stream.length < 4 then
    (⟨written, none, none⟩, .ioError)
  else
    let lenBytes := stream.take 4
    let respSize := be32dec lenBytes
    if respSize > bufCap then
      (⟨written, some lenBytes, none⟩, .boundsFault)
    else if (stream.drop 4).length < respSize then
      (⟨written, some lenBytes, none⟩, .ioError)
    else
      let payload := (stream.drop 4).take respSize
      match unmarshal payload with
      | none => (⟨written, some lenBytes, some payload⟩, .decodeError)
      | some r =>
          if r.code ≠ 1 then
            (⟨written, some lenBytes, some payload⟩, .exchangeRefused r.errMsg)
          else
            (⟨written, some lenBytes, some payload⟩, .ok)

/-! ## Refresher (`internal/alloydb/refresh.go`) -/

/-- A parsed X.509 certificate: its `NotAfter` instant plus the PEM it was
parsed from (standing in for the remaining parsed fields). -/
structure Cert where
  notAfter : Int
  pemId : String
  deriving DecidableEq, Repr

/-- A `tls.Certificate`: the encoded chain and the optional parsed `Leaf`. -/
structure TLSCertificate where
  chainPEM : List String
  leaf : Option Cert
  deriving DecidableEq, Repr

/-- The `clientCertificate` record built by `fetchClientCertificate`. -/
structure ClientCertificate where
  certChain : TLSCertificate
  caCert : Cert
  expiry : Int
  deriving DecidableEq, Repr

/-- `fetchClientCertificate` from refresh.go, on a successful
`GenerateClientCertificate` response carrying `pemChain`
(`resp.PemCertificateChain`, leaf first) and `caPEM` (`resp.CaCert`).
`parse` is the `parseCert`/`x509.ParseCertificate` oracle. Mirrors the
source: build the key pair from the joined chain (which fails when the chain
holds no certificate), parse the CA cert, parse the first chain element,
store it as `cert.Leaf` to avoid re-parsing during TLS handshakes, and
extract `expiry` from its `NotAfter`. -/
def fetchClientCertificate (parse : String → Option Cert)
    (pemChain : List String) (caPEM : String) :
    Except String ClientCertificate :=
  match pemChain with
  | [] => .error "create ephemeral cert failed"
  | leafPEM :: _ =>
    match parse caPEM with
    | none => .error "create ephemeral cert failed"
    | some caCert =>
      match parse leafPEM with
      | none => .error "create ephemeral cert failed"
      | some clientCert =>
          .ok { certChain := { chainPEM := pemChain, leaf := some clientCert },
                caCert := caCert,
                expiry := clientCert.notAfter }

/-- The `ConnectionInfo` record assembled by `performRefresh`. -/
structure RefreshedInfo where
  ipAddrs : List (String × String)
  clientCert : TLSCertificate
  rootCAs : List Cert
  expiration : Int
  deriving DecidableEq, Repr

/-- `refresher.performRefresh` from refresh.go, with the results of the two
parallel control-plane calls passed in: `mdRes` from `fetchInstanceInfo`
(the endpoint map) and `certRes` from `fetchClientCertificate`. On success
the trust store is a fresh pool holding exactly the returned CA cert, and
`Expiration` is the client certificate's expiry. -/
def performRefresh (mdRes : Except String (List (String × String)))
    (certRes : Except String ClientCertificate) :
    Except String RefreshedInfo :=
  match mdRes with
  | .error e => .error ("failed to get instance IP address: " ++ e)
  | .ok ipAddrs =>
    match certRes with
    | .error e => .error ("fetch ephemeral cert failed: " ++ e)
    | .ok cc =>
        .ok { ipAddrs := ipAddrs,
              clientCert := cc.certChain,
              rootCAs := [cc.caCert],
              expiration := cc.expiry }

/-! ## Instance URI parser (`instance/uri.go`)

`ParseURI` matches the unanchored Go regular expressions

  `projects/([^:]+(:[^:]+)?)/locations/([^:]+)/clusters/([^:]+)/instances/([^:]+)`
  `([^:]+)\.([^:]+)\.([^:]+)\.([^:]+)`

with Go's (non-POSIX) leftmost-first semantics: the match starts as early
as possible, and submatches are the ones a backtracking search would find
first, greedy quantifiers preferring longer matches. The embedding below
implements exactly that backtracking search, specialized to these two
patterns: `greedyPlus` enumerates the `[^:]+` candidates longest-first,
`stripLit` consumes a literal, and the find loops try successive start
positions left to right. -/

/-- Length of the maximal prefix free of ':' — the longest match a `[^:]+`
atom can take at this position. -/
def nonColonRun : List Char → Nat
  | [] => 0
  | c :: cs => if c = ':' then 0 else nonColonRun cs + 1

/-- Consume a literal prefix, failing on mismatch. -/
def stripLit : List Char → List Char → Option (List Char)
  | [], s => some s
  | _ :: _, [] => none
  | l :: ls, c :: cs => if l = c then stripLit ls cs else none

/-- Backtracking driver for a greedy `[^:]+` atom: try the candidate of
length `j` (`take j`/`drop j`), longest first, until the continuation `k`
succeeds. -/
def tryFrom (s : List Char) (k : List Char → List Char → Option β) :
    Nat → Option β
  | 0 => none
  | j + 1 =>
    match k (s.take (j + 1)) (s.drop (j + 1)) with
    | some v => some v
    | none => tryFrom s k j

/-- A greedy `[^:]+` atom followed by continuation `k`: candidates are the
nonempty colon-free prefixes, longest first. -/
def greedyPlus (s : List Char) (k : List Char → List Char → Option β) :
    Option β :=
  tryFrom s k (nonColonRun s)

/-- The literal `projects/`. -/
def litProjects : List Char :=
  ['p', 'r', 'o', 'j', 'e', 'c', 't', 's', '/']

/-- The literal `/locations/`. -/
def litLocations : List Char :=
  ['/', 'l', 'o', 'c', 'a', 't', 'i', 'o', 'n', 's', '/']

/-- The literal `/clusters/`. -/
def litClusters : List Char :=
  ['/', 'c', 'l', 'u', 's', 't', 'e', 'r', 's', '/']

/-- The literal `/instances/`. -/
def litInstances : List Char :=
  ['/', 'i', 'n', 's', 't', 'a', 'n', 'c', 'e', 's', '/']

/-- The final `([^:]+)` group: nothing follows it in the pattern, so the
greedy atom takes the maximal colon-free prefix, which must be nonempty. -/
def nameGroup (s : List Char) : Option (List Char) :=
  if nonColonRun s = 0 then none else some (s.take (nonColonRun s))

/-- The `([^:]+)/instances/([^:]+)` tail of the long pattern. -/
def clusterTail (s : List Char) : Option (List Char × List Char) :=
  greedyPlus s (fun c s5 =>
    (stripLit litInstances s5).bind (fun s6 =>
      (nameGroup s6).map (fun n => (c, n))))

/-- The `([^:]+)/clusters/([^:]+)/instances/([^:]+)` tail. -/
def regionTail (s : List Char) :
    Option (List Char × List Char × List Char) :=
  greedyPlus s (fun r s3 =>
    (stripLit litClusters s3).bind (fun t =>
      (clusterTail t).map (fun cn => (r, cn.1, cn.2))))

/-- What follows the project group: the literal `/locations/` and the
region/cluster/name tail. -/
def afterProject (s : List Char) :
    Option (List Char × List Char × List Char) :=
  (stripLit litLocations s).bind regionTail

/-- Continuation run after a candidate `a` for the first atom of the project
group `([^:]+(:[^:]+)?)`, with `s1` the rest of the input: the optional
`(:[^:]+)?` part greedily prefers to consume a colon and a second atom
(itself backtracking longest-first) before falling back to the empty
option. -/
def projCont (a s1 : List Char) :
    Option (List Char × List Char × List Char × List Char) :=
  match s1 with
  | c :: s2 =>
    if c = ':' then
      match greedyPlus s2 (fun b s3 =>
          (afterProject s3).map
            (fun t => (a ++ ':' :: b, t.1, t.2.1, t.2.2))) with
      | some v => some v
      | none => (afterProject s1).map (fun t => (a, t.1, t.2.1, t.2.2))
    else (afterProject s1).map (fun t => (a, t.1, t.2.1, t.2.2))
  | [] => (afterProject s1).map (fun t => (a, t.1, t.2.1, t.2.2))

/-- The long pattern anchored at the current position: the `projects/`
literal, then the backtracking project group with its continuation. -/
def matchLongAt (s : List Char) :
    Option (List Char × List Char × List Char × List Char) :=
  (stripLit litProjects s).bind (fun s0 => greedyPlus s0 projCont)

/-- Leftmost search for the long pattern: try each start position from the
left (`regexp.FindSubmatch`). -/
def findLong : List Char →
    Option (List Char × List Char × List Char × List Char)
  | [] => none
  | c :: t =>
    match matchLongAt (c :: t) with
    | some v => some v
    | none => findLong t

/-- The short pattern `([^:]+)\.([^:]+)\.([^:]+)\.([^:]+)` anchored at the
current position (the dots are literal). -/
def matchShortAt (s : List Char) :
    Option (List Char × List Char × List Char × List Char) :=
  greedyPlus s (fun p s1 =>
    (stripLit ['.'] s1).bind (fun t1 =>
      greedyPlus t1 (fun r s3 =>
        (stripLit ['.'] s3).bind (fun t2 =>
          greedyPlus t2 (fun c s5 =>
            (stripLit ['.'] s5).bind (fun t3 =>
              (nameGroup t3).map (fun n => (p, r, c, n))))))))

/-- Leftmost search for the short pattern. -/
def findShort : List Char →
    Option (List Char × List Char × List Char × List Char)
  | [] => none
  | c :: t =>
    match matchShortAt (c :: t) with
    | some v => some v
    | none => findShort t

/-- The `instance.URI` struct. -/
structure URIRec where
  project : String
  region : String
  cluster : String
  name : String
  deriving DecidableEq, Repr

/-- `ParseURI` from instance/uri.go: try the long-form regular expression
first, then the pseudo-DNS short form; `none` models the returned
configuration error. -/
def parseURI (uri : String) : Option URIRec :=
  match findLong uri.toList with
  | some (p, r, c, n) =>
      some ⟨p.asString, r.asString, c.asString, n.asString⟩
  | none =>
    match findShort uri.toList with
    | some (p, r, c, n) =>
        some ⟨p.asString, r.asString, c.asString, n.asString⟩
    | none => none

/-- `URI.URI()` from instance/uri.go: render the long form. -/
def URIRec.uri (i : URIRec) : String :=
  "projects/" ++ i.project ++ "/locations/" ++ i.region ++
    "/clusters/" ++ i.cluster ++ "/instances/" ++ i.name

/-- A well-formed URI path segment: nonempty, and free of '/' and ':'. -/
def Seg (x : List Char) : Prop :=
  x ≠ [] ∧ '/' ∉ x ∧ ':' ∉ x

instance : DecidablePred Seg := fun x => by
  unfold Seg; infer_instance

/-! ## Claim C1: refresh scheduling policy -/

/-- C1: after every completed refresh with expiration `e` observed at time
`now`, the next refresh is scheduled per the spec policy: if `e − now > 1h`
at `now + (e − now)/2`; if `e − now = 1h` at `now + 30m`; if
`4m < e − now < 1h` at `now + 1m`; and if `e − now ≤ 4m` immediately
(duration 0). The final five conjuncts are the vectors of
`TestRefreshDuration` (instance_test.go): expiry in 4h → wait 2h; in 1h →
30m; in 5m → 1m; in 3m → 0; now → 0. -/
theorem refresh_schedule_policy (now e : Int) :
    (e - now > nsHour → nextRefreshTime now e = now + (e - now) / 2) ∧
    (e - now = nsHour → nextRefreshTime now e = now + 30 * nsMinute) ∧
    (4 * nsMinute < e - now ∧ e - now < nsHour →
      nextRefreshTime now e = now + nsMinute) ∧
    (e - now ≤ 4 * nsMinute → nextRefreshTime now e = now) ∧
    refreshDuration now (now + 4 * nsHour) = 2 * nsHour ∧
    refreshDuration now (now + nsHour) = 30 * nsMinute ∧
    refreshDuration now (now + 5 * nsMinute) = nsMinute ∧
    refreshDuration now (now + 3 * nsMinute) = 0 ∧
    refreshDuration now now = 0 := by
  unfold nextRefreshTime refreshDuration nsHour nsMinute
  refine ⟨fun h => ?_, fun h => ?_, fun h => ?_, fun h => ?_, ?_, ?_, ?_, ?_, ?_⟩
  · rw [if_pos h]
  · rw [if_neg (by omega), if_pos h]
  · rw [if_neg (by omega), if_neg (by omega), if_pos h.1]
  · rw [if_neg (by omega), if_neg (by omega), if_neg (by omega)]
    omega
  · have hd : now + 4 * (60 * (60 * 1000000000)) - now =
        4 * (60 * (60 * 1000000000)) := by ring
    rw [hd, if_pos (by norm_num)]
    norm_num
  · have hd : now + 60 * (60 * 1000000000) - now =
        60 * (60 * 1000000000) := by ring
    rw [hd, if_neg (by norm_num), if_pos rfl]
  · have hd : now + 5 * (60 * 1000000000) - now =
        5 * (60 * 1000000000) := by ring
    rw [hd, if_neg (by norm_num), if_neg (by norm_num), if_pos (by norm_num)]
  · have hd : now + 3 * (60 * 1000000000) - now =
        3 * (60 * 1000000000) := by ring
    rw [hd, if_neg (by norm_num), if_neg (by norm_num), if_neg (by norm_num)]
  · have hd : now - now = 0 := by ring
    rw [hd, if_neg (by norm_num), if_neg (by norm_num), if_neg (by norm_num)]

/-- Witness for C1 at a concrete input: a refresh completed at time 0 with
expiration 4h hence schedules the next refresh at 2h. -/
theorem refresh_schedule_policy_witness :
    (4 * nsHour - 0 > nsHour) ∧
    nextRefreshTime 0 (4 * nsHour) = 0 + (4 * nsHour - 0) / 2 := by
  have h := (refresh_schedule_policy 0 (4 * nsHour)).1
  refine ⟨by norm_num [nsHour, nsMinute], h (by norm_num [nsHour, nsMinute])⟩

/-! ## Claim C2: failed refresh handling in the refresh-ahead cache -/

/-- C2: whenever a refresh operation completes with an error, the cache
schedules the next refresh attempt immediately (delay 0, no backoff); the
`cur` operation is left unchanged if it is still complete, successful and
unexpired, and is replaced by the failed operation only when the previous
current record is no longer valid. -/
theorem failed_refresh_keeps_valid_current (now : Int)
    (s : RefreshAheadState) (res : RefreshOperation) (ctxDone : Bool)
    (e : String) (h : res.err = some e) :
    (onRefreshComplete now s res ctxDone).2 = some 0 ∧
    (s.cur.ready = true → s.cur.err = none → now ≤ s.cur.result.expiry →
      (onRefreshComplete now s res ctxDone).1.cur = s.cur) ∧
    (s.cur.isValidAt now = false →
      (onRefreshComplete now s res ctxDone).1.cur = res) := by
  refine ⟨?_, ?_, ?_⟩
  · unfold onRefreshComplete
    simp [h]
  · intro hready herr hexp
    have hvalid : s.cur.isValidAt now = true := by
      unfold RefreshOperation.isValidAt
      simp [hready, herr, not_lt.mpr hexp]
    unfold onRefreshComplete
    simp [h, hvalid]
  · intro hvalid
    unfold onRefreshComplete
    simp [h, hvalid]

/-- Witness for C2 at a concrete input: a failed operation completing while
the current record is complete, successful and unexpired. -/
theorem failed_refresh_keeps_valid_current_witness :
    (onRefreshComplete 5
        ⟨⟨true, none, ⟨"10.0.0.1", 100⟩⟩⟩
        ⟨true, some "boom", ⟨"", 0⟩⟩ false).2 = some 0 ∧
    (onRefreshComplete 5
        ⟨⟨true, none, ⟨"10.0.0.1", 100⟩⟩⟩
        ⟨true, some "boom", ⟨"", 0⟩⟩ false).1.cur =
      ⟨true, none, ⟨"10.0.0.1", 100⟩⟩ := by
  have h := failed_refresh_keeps_valid_current 5
    ⟨⟨true, none, ⟨"10.0.0.1", 100⟩⟩⟩
    ⟨true, some "boom", ⟨"", 0⟩⟩ false "boom" rfl
  exact ⟨h.1, h.2.1 rfl rfl (by norm_num)⟩

/-! ## Claim C6: lazy cache contract -/

/-- C6: a `ConnectionInfo` call on the lazy cache returns the cached record
unchanged, without contacting the control plane, when `needsRefresh` is
false and `now` is before the expiration minus the 4-minute refresh buffer;
otherwise it performs a synchronous refresh, replaces the cache on success
and returns a refresh failure directly to the caller. -/
theorem lazy_connection_info_contract (now : Int) (s : LazyState)
    (r : Except String ConnectionInfo) :
    refreshBuffer = 4 * nsMinute ∧
    (s.needsRefresh = false → now < s.cached.expiration - refreshBuffer →
      lazyConnectionInfo now s r = (s, .ok s.cached, false)) ∧
    (s.needsRefresh = true ∨ s.cached.expiration - refreshBuffer ≤ now →
      ((∀ e, r = .error e → lazyConnectionInfo now s r = (s, .error e, true)) ∧
       (∀ ci, r = .ok ci →
         lazyConnectionInfo now s r =
           ({ needsRefresh := false, cached := ci }, .ok ci, true)))) := by
  refine ⟨rfl, ?_, ?_⟩
  · intro hflag hlt
    unfold lazyConnectionInfo
    simp [hflag, hlt]
  · intro hslow
    have hcond : (!s.needsRefresh &&
        decide (now < s.cached.expiration - refreshBuffer)) = false := by
      rcases hslow with h | h
      · simp [h]
      · simp [not_lt.mpr h]
    constructor
    · intro e he
      unfold lazyConnectionInfo
      simp [hcond, he]
    · intro ci hci
      unfold lazyConnectionInfo
      simp [hcond, hci]

/-- Witness for C6 at concrete inputs: the fast path returns the cached
record without refreshing. -/
theorem lazy_connection_info_contract_witness :
    lazyConnectionInfo 0
        ⟨false, ⟨[("PRIVATE", "10.0.0.1")], 10 * nsMinute⟩⟩
        (.error "unused") =
      (⟨false, ⟨[("PRIVATE", "10.0.0.1")], 10 * nsMinute⟩⟩,
       .ok ⟨[("PRIVATE", "10.0.0.1")], 10 * nsMinute⟩, false) := by
  have h := (lazy_connection_info_contract 0
    ⟨false, ⟨[("PRIVATE", "10.0.0.1")], 10 * nsMinute⟩⟩
    (.error "unused")).2.1
  exact h rfl (by norm_num [refreshBuffer, nsMinute])

/-! ## Claims C5 and C10: metadata exchange framing and buffer bounds -/

/-- Decoding the encoded 4-byte length recovers the length for any value
below 2^32. -/
theorem be32_roundtrip (n : Nat) (h : n < 2 ^ 32) :
    be32dec (be32enc n) = n := by
  have e : be32dec (be32enc n) =
      ((n % 2 ^ 32 / 2 ^ 24 % 256 * 256 + n % 2 ^ 32 / 2 ^ 16 % 256) * 256 +
        n % 2 ^ 32 / 2 ^ 8 % 256) * 256 + n % 2 ^ 32 % 256 := rfl
  rw [e]
  omega

/-- C5: the metadata exchange writes a 4-byte big-endian length prefix equal
to the marshalled request size (excluding the 4 prefix bytes) followed by
the request payload, then reads exactly 4 bytes of response length, then
reads exactly that many bytes of response payload, and those are exactly the
bytes handed to `proto.Unmarshal`. -/
theorem metadata_exchange_framing (reqBytes stream : List Nat)
    (unmarshal : List Nat → Option MdxResp)
    (hreq : reqBytes.length < 2 ^ 32)
    (hlen : 4 ≤ stream.length)
    (hsz : be32dec (stream.take 4) ≤ maxMessageSize)
    (hav : be32dec (stream.take 4) ≤ stream.length - 4) :
    (metadataExchange reqBytes stream unmarshal).1.written =
      be32enc reqBytes.length ++ reqBytes ∧
    be32dec (be32enc reqBytes.length) = reqBytes.length ∧
    (metadataExchange reqBytes stream unmarshal).1.lenRead =
      some (stream.take 4) ∧
    (stream.take 4).length = 4 ∧
    (metadataExchange reqBytes stream unmarshal).1.payloadRead =
      some ((stream.drop 4).take (be32dec (stream.take 4))) ∧
    ((stream.drop 4).take (be32dec (stream.take 4))).length =
      be32dec (stream.take 4) := by
  have hnotshort : ¬ stream.length < 4 := by omega
  have hcap : ¬ be32dec (stream.take 4) >
      max maxMessageSize (4 + reqBytes.length) := by
    have := le_max_left maxMessageSize (4 + reqBytes.length)
    omega
  have hdrop : (stream.drop 4).length = stream.length - 4 := by
    simp
  have hnotio : ¬ (stream.drop 4).length < be32dec (stream.take 4) := by
    omega
  have htrace : (metadataExchange reqBytes stream unmarshal).1 =
      ⟨be32enc reqBytes.length ++ reqBytes, some (stream.take 4),
       some ((stream.drop 4).take (be32dec (stream.take 4)))⟩ := by
    simp only [metadataExchange]
    rw [if_neg hnotshort, if_neg hcap, if_neg hnotio]
    cases hm : unmarshal ((stream.drop 4).take (be32dec (stream.take 4))) with
    | none => rfl
    | some r => by_cases hc : r.code ≠ 1 <;> simp [hc]
  refine ⟨by rw [htrace], be32_roundtrip _ hreq, by rw [htrace],
    by simp [List.length_take]; omega, by rw [htrace],
    by simp [List.length_take]; omega⟩

/-- Witness for C5 at concrete inputs: a 2-byte request and a stream with a
3-byte payload of length prefix 3. -/
theorem metadata_exchange_framing_witness :
    (metadataExchange [8, 1] [0, 0, 0, 3, 10, 11, 12]
        (fun _ => some ⟨1, ""⟩)).1.written = [0, 0, 0, 2, 8, 1] ∧
    (metadataExchange [8, 1] [0, 0, 0, 3, 10, 11, 12]
        (fun _ => some ⟨1, ""⟩)).1.payloadRead = some [10, 11, 12] := by
  have h := metadata_exchange_framing [8, 1] [0, 0, 0, 3, 10, 11, 12]
    (fun _ => some ⟨1, ""⟩) (by norm_num) (by norm_num)
    (by norm_num [be32dec, maxMessageSize]) (by norm_num [be32dec])
  refine ⟨?_, ?_⟩
  · rw [h.1]; rfl
  · rw [h.2.2.2.2.1]; rfl

/-- C10: the metadata exchange slices the pooled buffer by the peer-supplied
response length without a bounds check: whenever the 4-byte length prefix
decodes to a value greater than 16384 (and the request itself fits in the
pooled 16 KiB array, so `append` did not grow it), the slice expression
exceeds the buffer's capacity and the call faults at runtime instead of
returning an error. -/
theorem metadata_exchange_oversize_fault (reqBytes stream : List Nat)
    (unmarshal : List Nat → Option MdxResp)
    (hfit : 4 + reqBytes.length ≤ maxMessageSize)
    (hlen : 4 ≤ stream.length)
    (hbig : 16384 < be32dec (stream.take 4)) :
    (metadataExchange reqBytes stream unmarshal).2 = .boundsFault := by
  have hmax : max maxMessageSize (4 + reqBytes.length) = maxMessageSize :=
    max_eq_left hfit
  simp only [metadataExchange]
  rw [if_neg (by omega), if_pos (by rw [hmax]; unfold maxMessageSize; omega)]

/-- Witness for C10 at a concrete input: a response length prefix of 16385
faults. -/
theorem metadata_exchange_oversize_fault_witness :
    (metadataExchange [8, 1] [0, 0, 64, 1] (fun _ => some ⟨1, ""⟩)).2 =
      .boundsFault := by
  exact metadata_exchange_oversize_fault [8, 1] [0, 0, 64, 1]
    (fun _ => some ⟨1, ""⟩) (by norm_num [maxMessageSize]) (by norm_num)
    (by norm_num [be32dec])

/-! ## Claim C9: invariants of a successfully refreshed record -/

/-- C9: every `ConnectionInfo` produced by a successful refresh has its
`Expiration` equal to the leaf certificate's `NotAfter`, carries the parsed
leaf attached to the client certificate chain, and its root-CA trust store
contains exactly the one CA certificate returned by the control plane. -/
theorem refreshed_info_cert_invariants
    (parse : String → Option Cert) (pemChain : List String) (caPEM : String)
    (mdRes : Except String (List (String × String))) (ci : RefreshedInfo)
    (h : performRefresh mdRes
          (fetchClientCertificate parse pemChain caPEM) = .ok ci) :
    ∃ leafPEM leaf ca,
      pemChain.head? = some leafPEM ∧
      parse leafPEM = some leaf ∧
      ci.expiration = leaf.notAfter ∧
      ci.clientCert.leaf = some leaf ∧
      ci.clientCert.chainPEM = pemChain ∧
      parse caPEM = some ca ∧
      ci.rootCAs = [ca] := by
  cases mdRes with
  | error e => simp [performRefresh] at h
  | ok ipAddrs =>
    cases pemChain with
    | nil => simp [performRefresh, fetchClientCertificate] at h
    | cons leafPEM rest =>
      cases hca : parse caPEM with
      | none => simp [performRefresh, fetchClientCertificate, hca] at h
      | some caCert =>
        cases hlf : parse leafPEM with
        | none => simp [performRefresh, fetchClientCertificate, hca, hlf] at h
        | some clientCert =>
          have hrec : ci =
              { ipAddrs := ipAddrs,
                clientCert := { chainPEM := leafPEM :: rest,
                                leaf := some clientCert },
                rootCAs := [caCert],
                expiration := clientCert.notAfter } := by
            simp [performRefresh, fetchClientCertificate, hca, hlf] at h
            exact h.symm
          exact ⟨leafPEM, clientCert, caCert, rfl, hlf,
            by rw [hrec], by rw [hrec], by rw [hrec], rfl, by rw [hrec]⟩

/-- Witness for C9 at concrete inputs: a two-element chain where the parse
oracle succeeds on every PEM. -/
theorem refreshed_info_cert_invariants_witness :
    performRefresh (.ok [("PRIVATE", "10.0.0.1")])
        (fetchClientCertificate (fun s => some ⟨77, s⟩)
          ["leafpem", "interpem"] "capem") =
      .ok { ipAddrs := [("PRIVATE", "10.0.0.1")],
            clientCert := { chainPEM := ["leafpem", "interpem"],
                            leaf := some ⟨77, "leafpem"⟩ },
            rootCAs := [⟨77, "capem"⟩],
            expiration := 77 } ∧
    (∃ leafPEM leaf ca,
      (["leafpem", "interpem"] : List String).head? = some leafPEM ∧
      (fun s => some (⟨77, s⟩ : Cert)) leafPEM = some leaf ∧
      (77 : Int) = leaf.notAfter ∧
      (some ⟨77, "leafpem"⟩ : Option Cert) = some leaf ∧
      (["leafpem", "interpem"] : List String) = ["leafpem", "interpem"] ∧
      (fun s => some (⟨77, s⟩ : Cert)) "capem" = some ca ∧
      ([⟨77, "capem"⟩] : List Cert) = [ca]) := by
  refine ⟨rfl, ?_⟩
  have h := refreshed_info_cert_invariants (fun s => some ⟨77, s⟩)
    ["leafpem", "interpem"] "capem" (.ok [("PRIVATE", "10.0.0.1")])
    { ipAddrs := [("PRIVATE", "10.0.0.1")],
      clientCert := { chainPEM := ["leafpem", "interpem"],
                      leaf := some ⟨77, "leafpem"⟩ },
      rootCAs := [⟨77, "capem"⟩],
      expiration := 77 } rfl
  exact h

/-! ## Claims C3, C4, C8: dial pipeline and dialer close -/

/-- C3: in a Dial call, after fetching `ConnectionInfo`, if the current time
is strictly after the record's expiration (the leaf's `notAfter`), Dial
triggers `ForceRefresh` and fetches again; when the second fetch errors, the
cache entry is removed from the dialer's map with `Close` called on it and
the error is returned. -/
theorem dial_expired_cert_refetch (d : DialerState) (cfg : DialCfg)
    (inst : InstanceKey) (ci : ConnectionInfo) (e : String) (now : Int)
    (hclosed : d.closed = false) (hexp : now > ci.expiration) :
    (dialStep d cfg (.ok inst) (.ok ci) (.error e) now).2.1.forceRefreshCalled
      = true ∧
    (dialStep d cfg (.ok inst) (.ok ci) (.error e) now).2.2 =
      .fail (.refresh e) ∧
    inst ∉ (dialStep d cfg (.ok inst) (.ok ci) (.error e) now).1.cache ∧
    (dialStep d cfg (.ok inst) (.ok ci) (.error e) now).2.1.closedEntries =
      [inst] := by
  unfold dialStep
  simp [hclosed, hexp, List.mem_filter]

/-- Witness for C3 at concrete inputs: an entry whose certificate expired at
time 10 observed at time 11 with a failing second fetch. -/
theorem dial_expired_cert_refetch_witness :
    (dialStep ⟨false, []⟩ defaultDialCfg (.ok ⟨"p", "r", "c", "i"⟩)
        (.ok ⟨[("PRIVATE", "10.0.0.1")], 10⟩) (.error "refresh failed")
        11).2.2 = .fail (.refresh "refresh failed") ∧
    (⟨"p", "r", "c", "i"⟩ : InstanceKey) ∉
      (dialStep ⟨false, []⟩ defaultDialCfg (.ok ⟨"p", "r", "c", "i"⟩)
        (.ok ⟨[("PRIVATE", "10.0.0.1")], 10⟩) (.error "refresh failed")
        11).1.cache := by
  have h := dial_expired_cert_refetch ⟨false, []⟩ defaultDialCfg
    ⟨"p", "r", "c", "i"⟩ ⟨[("PRIVATE", "10.0.0.1")], 10⟩ "refresh failed" 11
    rfl (by norm_num)
  exact ⟨h.2.1, h.2.2.1⟩

/-- C4: when the requested endpoint kind (default PRIVATE) is absent from
the fetched record's endpoint map, Dial removes the cache entry for that
instance (closing it) and returns a configuration error whose message names
the missing endpoint kind. -/
theorem dial_missing_endpoint_config_error (d : DialerState) (cfg : DialCfg)
    (inst : InstanceKey) (ci : ConnectionInfo)
    (f2 : Except String ConnectionInfo) (now : Int)
    (hclosed : d.closed = false) (hvalid : ¬ now > ci.expiration)
    (hmiss : ci.addrOf cfg.ipType = none) :
    defaultDialCfg.ipType = "PRIVATE" ∧
    (dialStep d cfg (.ok inst) (.ok ci) f2 now).2.2 =
      .fail (.config (ipTypeMsg cfg.ipType)
        (inst.project ++ "/" ++ inst.region ++ "/" ++ inst.cluster ++ "/" ++
          inst.name)) ∧
    (∃ pre post, ipTypeMsg cfg.ipType = pre ++ cfg.ipType ++ post) ∧
    inst ∉ (dialStep d cfg (.ok inst) (.ok ci) f2 now).1.cache ∧
    (dialStep d cfg (.ok inst) (.ok ci) f2 now).2.1.closedEntries =
      [inst] := by
  refine ⟨rfl, ?_, ⟨"instance does not have IP of type \"", "\"", rfl⟩, ?_, ?_⟩
  · unfold dialStep
    simp [hclosed, hvalid, hmiss]
  · unfold dialStep
    simp [hclosed, hvalid, hmiss, List.mem_filter]
  · unfold dialStep
    simp [hclosed, hvalid, hmiss]

/-- Witness for C4 at concrete inputs: a record exposing only PSC while the
configuration requests the default PRIVATE endpoint. -/
theorem dial_missing_endpoint_config_error_witness :
    (dialStep ⟨false, []⟩ defaultDialCfg (.ok ⟨"p", "r", "c", "i"⟩)
        (.ok ⟨[("PSC", "x.y.alloydb.goog")], 100⟩) (.error "unused")
        5).2.2 =
      .fail (.config (ipTypeMsg "PRIVATE") "p/r/c/i") ∧
    (⟨"p", "r", "c", "i"⟩ : InstanceKey) ∉
      (dialStep ⟨false, []⟩ defaultDialCfg (.ok ⟨"p", "r", "c", "i"⟩)
        (.ok ⟨[("PSC", "x.y.alloydb.goog")], 100⟩) (.error "unused")
        5).1.cache := by
  have h := dial_missing_endpoint_config_error ⟨false, []⟩ defaultDialCfg
    ⟨"p", "r", "c", "i"⟩ ⟨[("PSC", "x.y.alloydb.goog")], 100⟩
    (.error "unused") 5 rfl (by norm_num) (by decide)
  exact ⟨h.2.1, h.2.2.2.1⟩

/-- C8: `Dialer.Close` is idempotent (a second and any further call returns
without error and leaves the state unchanged), and after the first Close
every Dial call fails immediately with the stable dialer-closed error
before parsing the instance identifier or touching the cache map. -/
theorem dialer_close_idempotent_dial_closed (d : DialerState)
    (cfg : DialCfg) (parseRes : Except (String × String) InstanceKey)
    (f1 f2 : Except String ConnectionInfo) (now : Int) :
    (closeDialer d).2 = none ∧
    closeDialer (closeDialer d).1 = ((closeDialer d).1, none) ∧
    (closeDialer d).1.closed = true ∧
    dialStep (closeDialer d).1 cfg parseRes f1 f2 now =
      ((closeDialer d).1, ⟨false, false, false, []⟩, .fail .dialerClosed) := by
  have h1 : (closeDialer d).1.closed = true := by
    unfold closeDialer
    by_cases h : d.closed <;> simp [h]
  refine ⟨?_, ?_, h1, ?_⟩
  · unfold closeDialer
    by_cases h : d.closed <;> simp [h]
  · conv_lhs => rw [closeDialer]
    simp [h1]
  · unfold dialStep
    simp [h1]

/-! ## Claim C7: URI parse and render round trip

Helper lemmas about the backtracking matcher, then the round-trip theorem.
The failure analysis works position by position: a literal that begins with
a slash can never match inside a slash-free segment, and the only positions
where it can match are characterized explicitly. -/

/-- Stripping a literal off itself followed by anything succeeds. -/
theorem stripLit_of_append (l t : List Char) : stripLit l (l ++ t) = some t := by
  induction l with
  | nil => rfl
  | cons a l ih => simp [stripLit, ih]

/-- Stripping fails when the first characters differ. -/
theorem stripLit_cons_ne {a b : Char} (l s : List Char) (h : ¬ a = b) :
    stripLit (a :: l) (b :: s) = none := by
  simp [stripLit, h]

/-- Stripping a nonempty literal off the empty list fails. -/
theorem stripLit_nil (a : Char) (l : List Char) :
    stripLit (a :: l) [] = none := rfl

/-- Characterization of successful stripping. -/
theorem stripLit_eq_some_iff {l s t : List Char} :
    stripLit l s = some t ↔ s = l ++ t := by
  induction l generalizing s with
  | nil => simp [stripLit]
  | cons a l ih =>
    cases s with
    | nil => simp [stripLit]
    | cons b s =>
      by_cases hab : a = b
      · subst hab
        simp [stripLit, ih]
      · rw [stripLit_cons_ne l s hab]
        constructor
        · intro h
          simp at h
        · intro h
          rw [List.cons_append] at h
          obtain ⟨h1, -⟩ := (List.cons.injEq ..).mp h
          exact absurd h1.symm hab

/-- A literal containing a slash never strips off a slash-free list. -/
theorem stripLit_slash_mem {l n : List Char} (hl : '/' ∈ l) (hn : '/' ∉ n) :
    stripLit l n = none := by
  cases h : stripLit l n with
  | none => rfl
  | some t =>
    rw [stripLit_eq_some_iff] at h
    exact absurd (h ▸ List.mem_append_left t hl) hn

/-- A slash-initial literal fails at every drop position of a slash-free
list (inside the list the head is a non-slash character; past its end the
list is empty). -/
theorem stripLit_slash_drop (l y : List Char) (hy : '/' ∉ y) (j : Nat) :
    stripLit ('/' :: l) (y.drop j) = none := by
  rcases Nat.lt_or_ge j y.length with h | h
  · rw [List.drop_eq_getElem_cons h]
    exact stripLit_cons_ne l _ (fun he => hy (he ▸ y.getElem_mem h))
  · rw [List.drop_eq_nil_of_le h]
    rfl

/-- A slash-initial literal fails at every position strictly inside a
slash-free segment `x` prefixing a longer list. -/
theorem stripLit_slash_inside {x : List Char} (y l : List Char) {j : Nat}
    (hx : '/' ∉ x) (hj : j < x.length) :
    stripLit ('/' :: l) ((x ++ y).drop j) = none := by
  rw [List.drop_append_of_le_length (Nat.le_of_lt hj),
    List.drop_eq_getElem_cons hj, List.cons_append]
  exact stripLit_cons_ne l _ (fun he => hx (he ▸ x.getElem_mem hj))

/-- Two slash-free segments followed by a slash align only when equal. -/
theorem seg_append_inj {c w z u : List Char} (hc : '/' ∉ c) (hw : '/' ∉ w)
    (h : c ++ '/' :: z = w ++ '/' :: u) : c = w ∧ z = u := by
  induction c generalizing w with
  | nil =>
    cases w with
    | nil => simpa using h
    | cons b w =>
      rw [List.nil_append, List.cons_append] at h
      obtain ⟨hb, -⟩ := (List.cons.injEq ..).mp h
      exact absurd (hb ▸ List.mem_cons_self b w) hw
  | cons a c ih =>
    cases w with
    | nil =>
      rw [List.cons_append, List.nil_append] at h
      obtain ⟨hb, -⟩ := (List.cons.injEq ..).mp h
      exact absurd (hb ▸ List.mem_cons_self a c) hc
    | cons b w =>
      rw [List.cons_append, List.cons_append] at h
      obtain ⟨hb, ht⟩ := (List.cons.injEq ..).mp h
      have := ih (fun hm => hc (List.mem_cons_of_mem a hm))
        (fun hm => hw (List.mem_cons_of_mem b hm)) ht
      exact ⟨by rw [hb, this.1], this.2⟩

/-- A `w ++ "/"`-shaped literal (with possibly more after the slash) fails
on `c ++ "/" ++ rest` when the slash-free segments `c` and `w` differ. -/
theorem stripLit_seg_mismatch {w c : List Char} (restLit z : List Char)
    (hw : '/' ∉ w) (hc : '/' ∉ c) (hne : c ≠ w) :
    stripLit (w ++ '/' :: restLit) (c ++ '/' :: z) = none := by
  cases h : stripLit (w ++ '/' :: restLit) (c ++ '/' :: z) with
  | none => rfl
  | some t =>
    rw [stripLit_eq_some_iff] at h
    rw [List.append_assoc, List.cons_append] at h
    exact absurd (seg_append_inj hc hw h).1 hne

/-- On a colon-free list the non-colon run is the whole length. -/
theorem nonColonRun_all {s : List Char} (h : ':' ∉ s) :
    nonColonRun s = s.length := by
  induction s with
  | nil => rfl
  | cons c cs ih =>
    have hc : ¬ c = ':' := fun he => h (he ▸ List.mem_cons_self c cs)
    simp [nonColonRun, hc, ih (fun hm => h (List.mem_cons_of_mem c hm))]

/-- The non-colon run of a colon-free segment followed by a colon is the
segment's length. -/
theorem nonColonRun_append_colon {a : List Char} (z : List Char)
    (h : ':' ∉ a) : nonColonRun (a ++ ':' :: z) = a.length := by
  induction a with
  | nil => simp [nonColonRun]
  | cons c cs ih =>
    have hc : ¬ c = ':' := fun he => h (he ▸ List.mem_cons_self c cs)
    simp [nonColonRun, hc, ih (fun hm => h (List.mem_cons_of_mem c hm))]

/-- The backtracking driver returns the continuation's value at `j0` when
every longer candidate fails. -/
theorem tryFrom_eq_of_succeeds {β : Type} {s : List Char}
    {k : List Char → List Char → Option β} {v : β} {j0 : Nat} :
    ∀ J, 1 ≤ j0 → j0 ≤ J →
    k (s.take j0) (s.drop j0) = some v →
    (∀ j, j0 < j → j ≤ J → k (s.take j) (s.drop j) = none) →
    tryFrom s k J = some v := by
  intro J
  induction J with
  | zero => omega
  | succ J ih =>
    intro h1 hJ hk hfail
    rcases Nat.lt_or_ge j0 (J + 1) with hlt | hge
    · have hnone : k (s.take (J + 1)) (s.drop (J + 1)) = none :=
        hfail (J + 1) hlt (Nat.le_refl _)
      rw [tryFrom, hnone]
      exact ih h1 (by omega) hk (fun j hj hj2 => hfail j hj (by omega))
    · have he : j0 = J + 1 := by omega
      subst he
      rw [tryFrom, hk]

/-- The backtracking driver fails when every candidate fails. -/
theorem tryFrom_eq_none {β : Type} {s : List Char}
    {k : List Char → List Char → Option β} :
    ∀ J, (∀ j, 1 ≤ j → j ≤ J → k (s.take j) (s.drop j) = none) →
    tryFrom s k J = none := by
  intro J
  induction J with
  | zero => intro _; rfl
  | succ J ih =>
    intro hfail
    rw [tryFrom, hfail (J + 1) (by omega) (Nat.le_refl _)]
    exact ih (fun j hj hj2 => hfail j hj (by omega))

/-- Greedy success: the atom takes the candidate of length `j0` when every
longer colon-free candidate fails. -/
theorem greedyPlus_eq_some {β : Type} {s : List Char}
    {k : List Char → List Char → Option β} {v : β} (j0 : Nat)
    (h1 : 1 ≤ j0) (hle : j0 ≤ nonColonRun s)
    (hk : k (s.take j0) (s.drop j0) = some v)
    (hfail : ∀ j, j0 < j → j ≤ nonColonRun s →
      k (s.take j) (s.drop j) = none) :
    greedyPlus s k = some v :=
  tryFrom_eq_of_succeeds _ h1 hle hk hfail

/-- Greedy failure: the atom fails when every candidate fails. -/
theorem greedyPlus_eq_none {β : Type} {s : List Char}
    {k : List Char → List Char → Option β}
    (hfail : ∀ j, 1 ≤ j → j ≤ nonColonRun s →
      k (s.take j) (s.drop j) = none) :
    greedyPlus s k = none :=
  tryFrom_eq_none _ hfail

/-- Any slash-initial literal with a slash in its tail cannot strip at any
positive drop position of `"instances/" ++ n` when `n` is slash-free. -/
theorem strip_slashLit_instSuffix (l n : List Char) (hl : '/' ∈ l)
    (hn : '/' ∉ n) (j : Nat) (h1 : 1 ≤ j) :
    stripLit ('/' :: l)
      (('i' :: 'n' :: 's' :: 't' :: 'a' :: 'n' :: 'c' :: 'e' :: 's' :: '/' ::
        n).drop j) = none := by
  rcases (by omega : (1 ≤ j ∧ j ≤ 8) ∨ j = 9 ∨ 10 ≤ j) with ⟨hj1, hj2⟩ | hj | hj
  · interval_cases j <;> simp [stripLit]
  · subst hj
    have hd : ('i' :: 'n' :: 's' :: 't' :: 'a' :: 'n' :: 'c' :: 'e' :: 's' ::
        '/' :: n).drop 9 = '/' :: n := by simp
    rw [hd]
    simp only [stripLit, if_pos rfl]
    exact stripLit_slash_mem hl hn
  · have hsplit : ('i' :: 'n' :: 's' :: 't' :: 'a' :: 'n' :: 'c' :: 'e' ::
        's' :: '/' :: n) =
        (['i', 'n', 's', 't', 'a', 'n', 'c', 'e', 's', '/'] : List Char) ++
          n := by simp
    have hj' : j = (['i', 'n', 's', 't', 'a', 'n', 'c', 'e', 's', '/'] :
        List Char).length + (j - 10) := by simp; omega
    rw [hsplit, hj', List.drop_append]
    exact stripLit_slash_drop l n hn (j - 10)

/-- Any slash-initial literal whose tail still holds a slash fails at every
positive drop position of `/instances/ ++ n` when `n` is slash-free. -/
theorem strip_slashLit_instTail (l n : List Char) (hl : '/' ∈ l)
    (hn : '/' ∉ n) (t : Nat) (h1 : 1 ≤ t) :
    stripLit ('/' :: l) ((litInstances ++ n).drop t) = none := by
  rcases (by omega : (1 ≤ t ∧ t ≤ 9) ∨ t = 10 ∨ 11 ≤ t) with ⟨ht1, ht2⟩ | ht | ht
  · interval_cases t <;> simp [litInstances, stripLit]
  · subst ht
    have hd : (litInstances ++ n).drop 10 = '/' :: n := by simp [litInstances]
    rw [hd]
    simp only [stripLit, if_pos rfl]
    exact stripLit_slash_mem hl hn
  · have ht' : t = litInstances.length + (t - 11) := by
      simp [litInstances]
      omega
    rw [ht', List.drop_append]
    exact stripLit_slash_drop l n hn (t - 11)

/-- F1: the `([^:]+)/instances/([^:]+)` tail fails on `"instances/" ++ n`
for slash-free `n`. -/
theorem clusterTail_instSuffix_none (n : List Char) (hn : '/' ∉ n) :
    clusterTail ('i' :: 'n' :: 's' :: 't' :: 'a' :: 'n' :: 'c' :: 'e' ::
      's' :: '/' :: n) = none := by
  apply greedyPlus_eq_none
  intro j h1 hJ
  have h := strip_slashLit_instSuffix
    ['i', 'n', 's', 't', 'a', 'n', 'c', 'e', 's', '/'] n (by decide) hn j h1
  simp only [litInstances]
  rw [h]
  rfl

/-- F3: the `([^:]+)/clusters/...` tail fails on `"instances/" ++ n` for
slash-free `n`. -/
theorem regionTail_instSuffix_none (n : List Char) (hn : '/' ∉ n) :
    regionTail ('i' :: 'n' :: 's' :: 't' :: 'a' :: 'n' :: 'c' :: 'e' ::
      's' :: '/' :: n) = none := by
  apply greedyPlus_eq_none
  intro j h1 hJ
  have h := strip_slashLit_instSuffix
    ['c', 'l', 'u', 's', 't', 'e', 'r', 's', '/'] n (by decide) hn j h1
  simp only [litClusters]
  rw [h]
  rfl

/-- At every positive drop position of `/clusters/ ++ c ++ /instances/ ++ n`
the literal `/clusters/` either fails to strip, or (at the trailing-slash
position when `c = "clusters"`) strips but leaves a remainder on which the
cluster tail fails. -/
theorem stripClusters_pos (c n : List Char) (hc : '/' ∉ c) (hn : '/' ∉ n)
    (t : Nat) (h1 : 1 ≤ t) :
    stripLit litClusters
      ((litClusters ++ (c ++ (litInstances ++ n))).drop t) = none ∨
    (∃ u, stripLit litClusters
        ((litClusters ++ (c ++ (litInstances ++ n))).drop t) = some u ∧
      clusterTail u = none) := by
  rcases (by omega : (1 ≤ t ∧ t ≤ 8) ∨ t = 9 ∨ 10 ≤ t) with ⟨ht1, ht2⟩ | ht | ht
  · left
    interval_cases t <;> simp [litClusters, stripLit]
  · subst ht
    have hd : (litClusters ++ (c ++ (litInstances ++ n))).drop 9 =
        '/' :: (c ++ ('/' :: ('i' :: 'n' :: 's' :: 't' :: 'a' :: 'n' :: 'c' ::
          'e' :: 's' :: '/' :: n))) := by
      simp [litClusters, litInstances]
    rw [hd]
    by_cases hceq : c = ['c', 'l', 'u', 's', 't', 'e', 'r', 's']
    · right
      subst hceq
      refine ⟨'i' :: 'n' :: 's' :: 't' :: 'a' :: 'n' :: 'c' :: 'e' :: 's' ::
        '/' :: n, ?_, clusterTail_instSuffix_none n hn⟩
      have ha : ('/' : Char) ::
          (['c', 'l', 'u', 's', 't', 'e', 'r', 's'] ++
            ('/' :: ('i' :: 'n' :: 's' :: 't' :: 'a' :: 'n' :: 'c' :: 'e' ::
              's' :: '/' :: n))) =
          litClusters ++ ('i' :: 'n' :: 's' :: 't' :: 'a' :: 'n' :: 'c' ::
            'e' :: 's' :: '/' :: n) := by
        simp [litClusters]
      rw [ha]
      exact stripLit_of_append _ _
    · left
      simp only [litClusters, stripLit, if_pos rfl]
      exact @stripLit_seg_mismatch ['c', 'l', 'u', 's', 't', 'e', 'r', 's'] c
        [] _ (by decide) hc hceq
  · have ht' : t = litClusters.length + (t - 10) := by
      simp [litClusters]
      omega
    rw [ht', List.drop_append]
    left
    rcases (by omega : t - 10 < c.length ∨ t - 10 = c.length ∨
        c.length < t - 10) with hlt | heq | hgt
    · simp only [litClusters]
      exact stripLit_slash_inside _ _ hc hlt
    · rw [heq, List.drop_left]
      simp [litClusters, litInstances, stripLit]
    · have h2 : t - 10 = c.length + (t - 10 - c.length) := by omega
      rw [h2, List.drop_append]
      simp only [litClusters]
      exact strip_slashLit_instTail _ n (by decide) hn _ (by omega)

/-- F2: the `([^:]+)/clusters/...` tail fails on
`"clusters/" ++ c ++ /instances/ ++ n` for slash-free `c`, `n`. -/
theorem regionTail_clustSuffix_none (c n : List Char) (hc : '/' ∉ c)
    (hn : '/' ∉ n) :
    regionTail ('c' :: 'l' :: 'u' :: 's' :: 't' :: 'e' :: 'r' :: 's' :: '/' ::
      (c ++ (litInstances ++ n))) = none := by
  apply greedyPlus_eq_none
  intro j h1 hJ
  have hs : ('c' :: 'l' :: 'u' :: 's' :: 't' :: 'e' :: 'r' :: 's' :: '/' ::
      (c ++ (litInstances ++ n))).drop j =
      (litClusters ++ (c ++ (litInstances ++ n))).drop (j + 1) := by
    simp [litClusters]
  rcases stripClusters_pos c n hc hn (j + 1) (by omega) with hnone | ⟨u, hsome, hu⟩
  · rw [hs, hnone]
    rfl
  · rw [hs, hsome]
    simp [hu]

/-- At every positive drop position of `/clusters/ ++ c ++ /instances/ ++ n`
the literal `/locations/` either fails to strip, or (at the trailing-slash
position when `c = "locations"`) strips but leaves a remainder on which the
region tail fails. -/
theorem stripLoc_in_clustTail (c n : List Char) (hc : '/' ∉ c)
    (hn : '/' ∉ n) (t : Nat) (h1 : 1 ≤ t) :
    stripLit litLocations
      ((litClusters ++ (c ++ (litInstances ++ n))).drop t) = none ∨
    (∃ u, stripLit litLocations
        ((litClusters ++ (c ++ (litInstances ++ n))).drop t) = some u ∧
      regionTail u = none) := by
  rcases (by omega : (1 ≤ t ∧ t ≤ 8) ∨ t = 9 ∨ 10 ≤ t) with ⟨ht1, ht2⟩ | ht | ht
  · left
    interval_cases t <;> simp [litClusters, litLocations, stripLit]
  · subst ht
    have hd : (litClusters ++ (c ++ (litInstances ++ n))).drop 9 =
        '/' :: (c ++ ('/' :: ('i' :: 'n' :: 's' :: 't' :: 'a' :: 'n' :: 'c' ::
          'e' :: 's' :: '/' :: n))) := by
      simp [litClusters, litInstances]
    rw [hd]
    by_cases hceq : c = ['l', 'o', 'c', 'a', 't', 'i', 'o', 'n', 's']
    · right
      subst hceq
      refine ⟨'i' :: 'n' :: 's' :: 't' :: 'a' :: 'n' :: 'c' :: 'e' :: 's' ::
        '/' :: n, ?_, regionTail_instSuffix_none n hn⟩
      have ha : ('/' : Char) ::
          (['l', 'o', 'c', 'a', 't', 'i', 'o', 'n', 's'] ++
            ('/' :: ('i' :: 'n' :: 's' :: 't' :: 'a' :: 'n' :: 'c' :: 'e' ::
              's' :: '/' :: n))) =
          litLocations ++ ('i' :: 'n' :: 's' :: 't' :: 'a' :: 'n' :: 'c' ::
            'e' :: 's' :: '/' :: n) := by
        simp [litLocations]
      rw [ha]
      exact stripLit_of_append _ _
    · left
      simp only [litLocations, stripLit, if_pos rfl]
      exact @stripLit_seg_mismatch ['l', 'o', 'c', 'a', 't', 'i', 'o', 'n', 's']
        c [] _ (by decide) hc hceq
  · have ht' : t = litClusters.length + (t - 10) := by
      simp [litClusters]
      omega
    rw [ht', List.drop_append]
    left
    rcases (by omega : t - 10 < c.length ∨ t - 10 = c.length ∨
        c.length < t - 10) with hlt | heq | hgt
    · simp only [litLocations]
      exact stripLit_slash_inside _ _ hc hlt
    · rw [heq, List.drop_left]
      simp [litLocations, litInstances, stripLit]
    · have h2 : t - 10 = c.length + (t - 10 - c.length) := by omega
      rw [h2, List.drop_append]
      simp only [litLocations]
      exact strip_slashLit_instTail _ n (by decide) hn _ (by omega)

/-- At every positive drop position of
`/locations/ ++ r ++ /clusters/ ++ c ++ /instances/ ++ n` the literal
`/locations/` either fails to strip, or strips at a pathological
trailing-slash position leaving a remainder on which the region tail
fails. -/
theorem stripLoc_pos (r c n : List Char) (hr : '/' ∉ r) (hc : '/' ∉ c)
    (hn : '/' ∉ n) (t : Nat) (h1 : 1 ≤ t) :
    stripLit litLocations
      ((litLocations ++
        (r ++ (litClusters ++ (c ++ (litInstances ++ n))))).drop t) = none ∨
    (∃ u, stripLit litLocations
        ((litLocations ++
          (r ++ (litClusters ++ (c ++ (litInstances ++ n))))).drop t) =
        some u ∧
      regionTail u = none) := by
  rcases (by omega : (1 ≤ t ∧ t ≤ 9) ∨ t = 10 ∨ 11 ≤ t) with ⟨ht1, ht2⟩ | ht | ht
  · left
    interval_cases t <;> simp [litLocations, stripLit]
  · subst ht
    have hd : (litLocations ++
        (r ++ (litClusters ++ (c ++ (litInstances ++ n))))).drop 10 =
        '/' :: (r ++ ('/' :: ('c' :: 'l' :: 'u' :: 's' :: 't' :: 'e' :: 'r' ::
          's' :: '/' :: (c ++ (litInstances ++ n))))) := by
      simp [litLocations, litClusters]
    rw [hd]
    by_cases hreq : r = ['l', 'o', 'c', 'a', 't', 'i', 'o', 'n', 's']
    · right
      subst hreq
      refine ⟨'c' :: 'l' :: 'u' :: 's' :: 't' :: 'e' :: 'r' :: 's' :: '/' ::
        (c ++ (litInstances ++ n)), ?_,
        regionTail_clustSuffix_none c n hc hn⟩
      have ha : ('/' : Char) ::
          (['l', 'o', 'c', 'a', 't', 'i', 'o', 'n', 's'] ++
            ('/' :: ('c' :: 'l' :: 'u' :: 's' :: 't' :: 'e' :: 'r' :: 's' ::
              '/' :: (c ++ (litInstances ++ n))))) =
          litLocations ++ ('c' :: 'l' :: 'u' :: 's' :: 't' :: 'e' :: 'r' ::
            's' :: '/' :: (c ++ (litInstances ++ n))) := by
        simp [litLocations]
      rw [ha]
      exact stripLit_of_append _ _
    · left
      simp only [litLocations, stripLit, if_pos rfl]
      exact @stripLit_seg_mismatch ['l', 'o', 'c', 'a', 't', 'i', 'o', 'n', 's']
        r [] _ (by decide) hr hreq
  · have ht' : t = litLocations.length + (t - 11) := by
      simp [litLocations]
      omega
    rw [ht', List.drop_append]
    rcases (by omega : t - 11 < r.length ∨ t - 11 = r.length ∨
        r.length < t - 11) with hlt | heq | hgt
    · left
      simp only [litLocations]
      exact stripLit_slash_inside _ _ hr hlt
    · left
      rw [heq, List.drop_left]
      simp [litLocations, litClusters, stripLit]
    · have h2 : t - 11 = r.length + (t - 11 - r.length) := by omega
      rw [h2, List.drop_append]
      exact stripLoc_in_clustTail c n hc hn _ (by omega)

/-- At every positive drop position of the rendered tail, the
`/locations/ ++ region tail` continuation fails. -/
theorem afterProject_pos_none (r c n : List Char) (hr : '/' ∉ r)
    (hc : '/' ∉ c) (hn : '/' ∉ n) (t : Nat) (h1 : 1 ≤ t) :
    afterProject
      ((litLocations ++
        (r ++ (litClusters ++ (c ++ (litInstances ++ n))))).drop t) =
      none := by
  unfold afterProject
  rcases stripLoc_pos r c n hr hc hn t h1 with hnone | ⟨u, hsome, hu⟩
  · rw [hnone]
    rfl
  · rw [hsome]
    simpa using hu

/-- The final name group takes a whole nonempty colon-free input. -/
theorem nameGroup_whole {n : List Char} (hne : n ≠ []) (hcol : ':' ∉ n) :
    nameGroup n = some n := by
  unfold nameGroup
  rw [nonColonRun_all hcol]
  rw [if_neg (by simpa using hne), List.take_length]

/-- The cluster tail parses a rendered `c ++ /instances/ ++ n` exactly. -/
theorem clusterTail_render {c n : List Char} (hcne : c ≠ []) (hcc : ':' ∉ c)
    (hnne : n ≠ []) (hnc : ':' ∉ n) (hns : '/' ∉ n) :
    clusterTail (c ++ (litInstances ++ n)) = some (c, n) := by
  have hcf : ':' ∉ c ++ (litInstances ++ n) := by
    intro hmem
    rcases List.mem_append.mp hmem with h | h
    · exact hcc h
    rcases List.mem_append.mp h with h2 | h2
    · exact absurd h2 (by decide)
    · exact hnc h2
  apply greedyPlus_eq_some c.length
  · exact List.length_pos.mpr hcne
  · rw [nonColonRun_all hcf]
    simp
  · rw [List.take_left, List.drop_left]
    rw [stripLit_of_append, Option.some_bind, nameGroup_whole hnne hnc]
    rfl
  · intro j hj1 hj2
    have ht : j = c.length + (j - c.length) := by omega
    rw [ht, List.drop_append]
    have hstrip : stripLit litInstances
        ((litInstances ++ n).drop (j - c.length)) = none := by
      simp only [litInstances]
      exact strip_slashLit_instTail _ n (by decide) hns _ (by omega)
    rw [hstrip]
    rfl

/-- The region tail parses a rendered
`r ++ /clusters/ ++ c ++ /instances/ ++ n` exactly. -/
theorem regionTail_render {r c n : List Char} (hrne : r ≠ []) (hrc : ':' ∉ r)
    (hcne : c ≠ []) (hcc : ':' ∉ c) (hcs : '/' ∉ c)
    (hnne : n ≠ []) (hnc : ':' ∉ n) (hns : '/' ∉ n) :
    regionTail (r ++ (litClusters ++ (c ++ (litInstances ++ n)))) =
      some (r, c, n) := by
  have hcf : ':' ∉ r ++ (litClusters ++ (c ++ (litInstances ++ n))) := by
    intro hmem
    rcases List.mem_append.mp hmem with h | h
    · exact hrc h
    rcases List.mem_append.mp h with h2 | h2
    · exact absurd h2 (by decide)
    rcases List.mem_append.mp h2 with h3 | h3
    · exact hcc h3
    rcases List.mem_append.mp h3 with h4 | h4
    · exact absurd h4 (by decide)
    · exact hnc h4
  apply greedyPlus_eq_some r.length
  · exact List.length_pos.mpr hrne
  · rw [nonColonRun_all hcf]
    simp
  · rw [List.take_left, List.drop_left]
    rw [show stripLit litClusters
        (litClusters ++ (c ++ (litInstances ++ n))) =
        some (c ++ (litInstances ++ n)) from stripLit_of_append _ _]
    rw [Option.some_bind, clusterTail_render hcne hcc hnne hnc hns]
    rfl
  · intro j hj1 hj2
    have ht : j = r.length + (j - r.length) := by omega
    rw [ht, List.drop_append]
    rcases stripClusters_pos c n hcs hns (j - r.length) (by omega) with
      hnone | ⟨u, hsome, hu⟩
    · rw [hnone]
      rfl
    · rw [hsome]
      simp [hu]

/-- The `/locations/` continuation parses a rendered tail exactly. -/
theorem afterProject_render {r c n : List Char} (hrne : r ≠ []) (hrc : ':' ∉ r)
    (hcne : c ≠ []) (hcc : ':' ∉ c) (hcs : '/' ∉ c)
    (hnne : n ≠ []) (hnc : ':' ∉ n) (hns : '/' ∉ n) :
    afterProject
      (litLocations ++ (r ++ (litClusters ++ (c ++ (litInstances ++ n))))) =
      some (r, c, n) := by
  unfold afterProject
  rw [stripLit_of_append, Option.some_bind]
  exact regionTail_render hrne hrc hcne hcc hcs hnne hnc hns

/-- The long pattern anchored at the start parses a rendered URI with a
plain (colon-free) project exactly. -/
theorem matchLongAt_render_plain {p r c n : List Char}
    (hpne : p ≠ []) (hpc : ':' ∉ p)
    (hrne : r ≠ []) (hrc : ':' ∉ r) (hrs : '/' ∉ r)
    (hcne : c ≠ []) (hcc : ':' ∉ c) (hcs : '/' ∉ c)
    (hnne : n ≠ []) (hnc : ':' ∉ n) (hns : '/' ∉ n) :
    matchLongAt
      (litProjects ++ (p ++ (litLocations ++
        (r ++ (litClusters ++ (c ++ (litInstances ++ n))))))) =
      some (p, r, c, n) := by
  have htailc : ':' ∉ litLocations ++
      (r ++ (litClusters ++ (c ++ (litInstances ++ n)))) := by
    intro hmem
    rcases List.mem_append.mp hmem with h | h
    · exact absurd h (by decide)
    rcases List.mem_append.mp h with h2 | h2
    · exact hrc h2
    rcases List.mem_append.mp h2 with h3 | h3
    · exact absurd h3 (by decide)
    rcases List.mem_append.mp h3 with h4 | h4
    · exact hcc h4
    rcases List.mem_append.mp h4 with h5 | h5
    · exact absurd h5 (by decide)
    · exact hnc h5
  have hs0c : ':' ∉ p ++ (litLocations ++
      (r ++ (litClusters ++ (c ++ (litInstances ++ n))))) := by
    intro hmem
    rcases List.mem_append.mp hmem with h | h
    · exact hpc h
    · exact htailc h
  unfold matchLongAt
  rw [stripLit_of_append, Option.some_bind]
  apply greedyPlus_eq_some p.length
  · exact List.length_pos.mpr hpne
  · rw [nonColonRun_all hs0c]
    simp
  · rw [List.take_left, List.drop_left]
    have hd : litLocations ++
        (r ++ (litClusters ++ (c ++ (litInstances ++ n)))) =
        '/' :: ('l' :: 'o' :: 'c' :: 'a' :: 't' :: 'i' :: 'o' :: 'n' :: 's' ::
          '/' :: (r ++ (litClusters ++ (c ++ (litInstances ++ n))))) := by
      simp [litLocations]
    rw [hd]
    simp only [projCont]
    rw [if_neg (by decide), ← hd,
      afterProject_render hrne hrc hcne hcc hcs hnne hnc hns]
    rfl
  · intro j hj1 hj2
    have ht : j = p.length + (j - p.length) := by omega
    rw [ht, List.drop_append]
    cases hdr : (litLocations ++
        (r ++ (litClusters ++ (c ++ (litInstances ++ n))))).drop
          (j - p.length) with
    | nil => simp [projCont, afterProject, litLocations, stripLit]
    | cons ch s2 =>
      have hch : ¬ ch = ':' := by
        intro he
        subst he
        have hchmem : (':' : Char) ∈ litLocations ++
            (r ++ (litClusters ++ (c ++ (litInstances ++ n)))) := by
          have hx : (':' : Char) ∈ (litLocations ++
              (r ++ (litClusters ++ (c ++ (litInstances ++ n))))).drop
                (j - p.length) := by
            rw [hdr]
            exact List.mem_cons_self _ _
          exact List.mem_of_mem_drop hx
        exact htailc hchmem
      simp only [projCont]
      rw [if_neg hch, ← hdr,
        afterProject_pos_none r c n hrs hcs hns (j - p.length) (by omega)]
      rfl

/-- The long pattern anchored at the start parses a rendered URI with a
legacy domain-scoped project (one colon) exactly. -/
theorem matchLongAt_render_domain {a b r c n : List Char}
    (hane : a ≠ []) (hac : ':' ∉ a)
    (hbne : b ≠ []) (hbc : ':' ∉ b)
    (hrne : r ≠ []) (hrc : ':' ∉ r) (hrs : '/' ∉ r)
    (hcne : c ≠ []) (hcc : ':' ∉ c) (hcs : '/' ∉ c)
    (hnne : n ≠ []) (hnc : ':' ∉ n) (hns : '/' ∉ n) :
    matchLongAt
      (litProjects ++ ((a ++ ':' :: b) ++ (litLocations ++
        (r ++ (litClusters ++ (c ++ (litInstances ++ n))))))) =
      some (a ++ ':' :: b, r, c, n) := by
  have htailc : ':' ∉ litLocations ++
      (r ++ (litClusters ++ (c ++ (litInstances ++ n)))) := by
    intro hmem
    rcases List.mem_append.mp hmem with h | h
    · exact absurd h (by decide)
    rcases List.mem_append.mp h with h2 | h2
    · exact hrc h2
    rcases List.mem_append.mp h2 with h3 | h3
    · exact absurd h3 (by decide)
    rcases List.mem_append.mp h3 with h4 | h4
    · exact hcc h4
    rcases List.mem_append.mp h4 with h5 | h5
    · exact absurd h5 (by decide)
    · exact hnc h5
  unfold matchLongAt
  rw [stripLit_of_append, Option.some_bind]
  have hs0 : (a ++ ':' :: b) ++ (litLocations ++
      (r ++ (litClusters ++ (c ++ (litInstances ++ n))))) =
      a ++ (':' :: (b ++ (litLocations ++
        (r ++ (litClusters ++ (c ++ (litInstances ++ n))))))) := by
    simp
  rw [hs0]
  apply greedyPlus_eq_some a.length
  · exact List.length_pos.mpr hane
  · rw [nonColonRun_append_colon _ hac]
  · rw [List.take_left, List.drop_left]
    simp only [projCont, if_true]
    have hbf : ':' ∉ b ++ (litLocations ++
        (r ++ (litClusters ++ (c ++ (litInstances ++ n))))) := by
      intro hmem
      rcases List.mem_append.mp hmem with h | h
      · exact hbc h
      · exact htailc h
    have hinner : greedyPlus (b ++ (litLocations ++
        (r ++ (litClusters ++ (c ++ (litInstances ++ n))))))
        (fun b1 s3 => (afterProject s3).map
          (fun t => (a ++ ':' :: b1, t.1, t.2.1, t.2.2))) =
        some (a ++ ':' :: b, r, c, n) := by
      apply greedyPlus_eq_some b.length
      · exact List.length_pos.mpr hbne
      · rw [nonColonRun_all hbf]
        simp
      · rw [List.take_left, List.drop_left,
          afterProject_render hrne hrc hcne hcc hcs hnne hnc hns]
        rfl
      · intro j hj1 hj2
        have ht : j = b.length + (j - b.length) := by omega
        rw [ht, List.drop_append,
          afterProject_pos_none r c n hrs hcs hns (j - b.length) (by omega)]
        rfl
    rw [hinner]
  · intro j hj1 hj2
    rw [nonColonRun_append_colon _ hac] at hj2
    exact absurd hj2 (by omega)

/-- The leftmost search returns a match found at the start position. -/
theorem findLong_cons {ch : Char} {t : List Char}
    {v : List Char × List Char × List Char × List Char}
    (h : matchLongAt (ch :: t) = some v) : findLong (ch :: t) = some v := by
  rw [findLong, h]

/-- The rendered long form, as a character list, splits into the four
literals and the four parts. -/
theorem uri_toList (u : URIRec) :
    (URIRec.uri u).toList =
      litProjects ++ (u.project.toList ++ (litLocations ++
        (u.region.toList ++ (litClusters ++ (u.cluster.toList ++
          (litInstances ++ u.name.toList)))))) := by
  have h1 : ("projects/" : String).data = litProjects := rfl
  have h2 : ("/locations/" : String).data = litLocations := rfl
  have h3 : ("/clusters/" : String).data = litClusters := rfl
  have h4 : ("/instances/" : String).data = litInstances := rfl
  show (URIRec.uri u).data = _
  simp only [URIRec.uri, String.data_append, h1, h2, h3, h4,
    List.append_assoc]
  rfl

/-- Parsing a rendered long form recovers the record, for well-formed
segments and a project that is either a plain segment or domain-scoped. -/
theorem parseURI_render (u : URIRec)
    (hr : Seg u.region.toList) (hc : Seg u.cluster.toList)
    (hn : Seg u.name.toList)
    (hp : Seg u.project.toList ∨
      ∃ a b, Seg a ∧ Seg b ∧ u.project.toList = a ++ ':' :: b) :
    parseURI u.uri = some u := by
  obtain ⟨hrne, hrs, hrc⟩ := hr
  obtain ⟨hcne, hcs, hcc⟩ := hc
  obtain ⟨hnne, hns, hnc⟩ := hn
  have hmatch : matchLongAt ((URIRec.uri u).toList) =
      some (u.project.toList, u.region.toList, u.cluster.toList,
        u.name.toList) := by
    rw [uri_toList]
    rcases hp with ⟨hpne, hps, hpc⟩ | ⟨a, b, ⟨hane, has, hac⟩, ⟨hbne, hbs, hbc⟩, hpeq⟩
    · exact matchLongAt_render_plain hpne hpc hrne hrc hrs hcne hcc hcs
        hnne hnc hns
    · rw [hpeq]
      exact matchLongAt_render_domain hane hac hbne hbc hrne hrc hrs
        hcne hcc hcs hnne hnc hns
  have hfind : findLong ((URIRec.uri u).toList) =
      some (u.project.toList, u.region.toList, u.cluster.toList,
        u.name.toList) := by
    have hcons : (URIRec.uri u).toList =
        'p' :: ('r' :: 'o' :: 'j' :: 'e' :: 'c' :: 't' :: 's' :: '/' ::
          (u.project.toList ++ (litLocations ++ (u.region.toList ++
            (litClusters ++ (u.cluster.toList ++ (litInstances ++
              u.name.toList))))))) := by
      rw [uri_toList]
      simp [litProjects]
    rw [hcons] at hmatch ⊢
    exact findLong_cons hmatch
  unfold parseURI
  rw [hfind]
  simp only [String.asString_toList]

/-- C7: for every instance key, parsing the long form, rendering the
resulting key back to the long form, and re-parsing yields a key
structurally equal to the first parse; this holds also for legacy
domain-scoped projects containing one colon. Parts are URI segments
(nonempty, free of '/' and ':'), the project being either a segment or two
segments joined by one colon. -/
theorem uri_parse_render_roundtrip (u : URIRec)
    (hr : Seg u.region.toList) (hc : Seg u.cluster.toList)
    (hn : Seg u.name.toList)
    (hp : Seg u.project.toList ∨
      ∃ a b, Seg a ∧ Seg b ∧ u.project.toList = a ++ ':' :: b) :
    ∃ k, parseURI u.uri = some k ∧ parseURI k.uri = some k ∧ k = u := by
  have hparse := parseURI_render u hr hc hn hp
  exact ⟨u, hparse, hparse, rfl⟩

/-- Witness for C7 at a concrete domain-scoped key: parsing
`projects/google.com:proj/locations/reg/clusters/clust/instances/name`
round-trips. -/
theorem uri_parse_render_roundtrip_witness :
    ∃ k, parseURI
        (URIRec.uri ⟨"google.com:proj", "reg", "clust", "name"⟩) = some k ∧
      parseURI k.uri = some k ∧
      k = ⟨"google.com:proj", "reg", "clust", "name"⟩ := by
  exact uri_parse_render_roundtrip ⟨"google.com:proj", "reg", "clust", "name"⟩
    (by decide) (by decide) (by decide)
    (Or.inr ⟨"google.com".toList, "proj".toList, by decide, by decide,
      by decide⟩)

end AlloyDB
